import Mathlib

/-!
Shallow embedding of the gptsh chat-turn orchestrator core:
`src/gptsh/core/session.py` (ChatSession), `src/gptsh/core/approval.py`
(DefaultApprovalPolicy), `src/gptsh/core/runner.py` (MarkdownBuffer) and
`src/gptsh/mcp/client.py` (tool discovery).

Python strings are modelled as lists of Unicode code points (`Str := List Nat`);
`str.lower`, `str.replace("-", "_")`, `str.strip` become code-point maps, and
truthiness of a string is emptiness.  External library calls (the LLM client,
MCP transports, `json.loads`) are modelled explicitly where they decide a
claim and abstracted into script inputs otherwise.
-/

namespace Gptsh

abbrev Str := List Nat

/-- Python `str.lower`, per code point (ASCII letters 65–90 map to 97–122). -/
def lowerChar (c : Nat) : Nat := if 65 ≤ c ∧ c ≤ 90 then c + 32 else c

/-- Python `str.replace("-", "_")`, per code point (45 is `-`, 95 is `_`). -/
def replChar (c : Nat) : Nat := if c = 45 then 95 else c

/-- Python whitespace used by `str.strip` (space, tab, LF, VT, FF, CR). -/
def isSpaceNat (c : Nat) : Bool :=
  c = 32 || c = 9 || c = 10 || c = 11 || c = 12 || c = 13

/-- Python `str.lstrip()`. -/
def lstripN (s : Str) : Str := s.dropWhile isSpaceNat

/-- Python `str.strip()`. -/
def stripN (s : Str) : Str :=
  ((s.dropWhile isSpaceNat).reverse.dropWhile isSpaceNat).reverse

/-- First index at which `sub` occurs in `s` (Python `s.find(sub)`, `none` for -1). -/
def findSub (s sub : List Nat) : Option Nat :=
  match s with
  | [] => if sub = [] then some 0 else none
  | _ :: rest => if sub.isPrefixOf s then some 0 else (findSub rest sub).map (· + 1)

/-! ## Approval policy (`src/gptsh/core/approval.py`) -/

/-- `_canon`: `str(n).lower().replace("-", "_").strip()`. -/
def canon (n : Str) : Str := stripN ((n.map lowerChar).map replChar)

def starStr : Str := [42]        -- "*"
def sepStr : Str := [95, 95]     -- "__"

structure DefaultApprovalPolicy where
  approved : List (Str × List Str)

/-- Python `self._approved.get(k, [])` (dict keys are unique). -/
def lookupApproved (p : DefaultApprovalPolicy) (k : Str) : List Str :=
  ((p.approved.find? (fun e => decide (e.1 = k))).map (·.2)).getD []

/-- `DefaultApprovalPolicy.is_auto_allowed`. -/
def is_auto_allowed (p : DefaultApprovalPolicy) (server tool : Str) : Bool :=
  let s := lookupApproved p server
  let g := lookupApproved p starStr
  let canon_tool := canon tool
  let canon_full := canon (server ++ sepStr ++ tool)
  let s_c := s.map canon
  let g_c := g.map canon
  s.contains starStr || g.contains starStr ||
    s_c.contains canon_tool || g_c.contains canon_tool ||
    s_c.contains canon_full || g_c.contains canon_full

/-- The claim C7's normalization of a name: lowercase and treat `-` and `_`
as equivalent (map `-` to `_`). -/
def normName (t : Str) : Str := (t.map lowerChar).map replChar

/-! ## Usage accounting (`ChatSession._update_usage`) -/

structure UsageRecord where
  completion_tokens : Option Nat := none
  prompt_tokens : Option Nat := none
  total_tokens : Option Nat := none
  /-- `completion_tokens_details.reasoning_tokens` -/
  reasoning_tokens : Option Nat := none
  /-- `prompt_tokens_details.cached_tokens` -/
  cached_tokens : Option Nat := none
  cost : Option ℚ := none
deriving DecidableEq

structure UsageTokens where
  completion : Option Nat
  prompt : Option Nat
  total : Option Nat
  reasoning_tokens : Option Nat
  cached_tokens : Option Nat
deriving DecidableEq

/-- `ChatSession.usage`: starts as the empty dict (`tokens` unset, cost
defaulting to 0 via `self.usage.get("cost", 0)`). -/
structure UsageState where
  tokens : Option UsageTokens
  cost : ℚ
deriving DecidableEq

def initUsage : UsageState := ⟨none, 0⟩

def tokensOf (u : UsageRecord) : UsageTokens :=
  ⟨u.completion_tokens, u.prompt_tokens, u.total_tokens,
   u.reasoning_tokens, u.cached_tokens⟩

/-- `ChatSession._update_usage`: the `tokens` dict is rebuilt from the incoming
record; `cost` is carried over and incremented when the record carries a
truthy cost. -/
def update_usage (st : UsageState) (u : UsageRecord) : UsageState :=
  let st1 : UsageState := { tokens := some (tokensOf u), cost := st.cost }
  match u.cost with
  | some c => if c ≠ 0 then { st1 with cost := st1.cost + c } else st1
  | none => st1

/-- The cost contributed by one usage record (truthiness of `usage.cost`). -/
def effCost (u : UsageRecord) : ℚ :=
  match u.cost with
  | some c => if c ≠ 0 then c else 0
  | none => 0

/-! ### Theorems for C7 -/

lemma replChar_lowerChar_idem (c : Nat) :
    replChar (lowerChar (replChar (lowerChar c))) = replChar (lowerChar c) := by
  unfold replChar lowerChar
  split_ifs <;> omega

lemma map_normName_eq (t : Str) :
    ((normName t).map lowerChar).map replChar = (t.map lowerChar).map replChar := by
  unfold normName
  simp only [List.map_map]
  apply List.map_congr_left
  intro c _
  exact replChar_lowerChar_idem c

lemma canon_normName (t : Str) : canon (normName t) = canon t := by
  unfold canon
  rw [map_normName_eq]

lemma canon_append_normName (server t : Str) :
    canon (server ++ sepStr ++ normName t) = canon (server ++ sepStr ++ t) := by
  unfold canon
  simp only [List.map_append]
  rw [show ((normName t).map lowerChar).map replChar
        = (t.map lowerChar).map replChar from map_normName_eq t]

/-- Claim C7: the auto-allow predicate is invariant under normalization of the
tool name (lowercasing and mapping `-` to `_`): for every policy, server and
tool, `is_auto_allowed p s t = is_auto_allowed p s (normName t)`. -/
theorem c7_auto_allow_norm_invariant (p : DefaultApprovalPolicy) (server tool : Str) :
    is_auto_allowed p server tool = is_auto_allowed p server (normName tool) := by
  unfold is_auto_allowed
  rw [canon_normName, canon_append_normName]

/-! ### Theorems for C3 -/

/-- Claim C3 counterexample: two usage records with `prompt_tokens` 1 and 2
leave the session counter at 2 (the last record), not at the sum 3 — token
fields are overwritten, not accumulated. -/
theorem c3_counterexample :
    ((update_usage (update_usage initUsage
        { prompt_tokens := some 1 }) { prompt_tokens := some 2 }).tokens.map
          UsageTokens.prompt) = some (some 2) ∧ (2 : Nat) ≠ 1 + 2 := by
  constructor
  · rfl
  · decide

/-- Claim C3 as amended: across a non-empty sequence of usage records the
session's token fields equal those of the *last* record (each update
overwrites them), while `cost` alone accumulates, adding every record's
truthy cost. -/
lemma update_usage_tokens (st : UsageState) (u : UsageRecord) :
    (update_usage st u).tokens = some (tokensOf u) := by
  unfold update_usage
  cases u.cost with
  | none => rfl
  | some c =>
    by_cases h0 : c = 0
    · simp [h0]
    · simp [h0]

lemma update_usage_cost (st : UsageState) (u : UsageRecord) :
    (update_usage st u).cost = st.cost + effCost u := by
  unfold update_usage effCost
  cases u.cost with
  | none => simp
  | some c =>
    by_cases h0 : c = 0
    · simp [h0]
    · simp [h0]

theorem c3_tokens_overwritten_cost_accumulated
    (st : UsageState) (us : List UsageRecord) (h : us ≠ []) :
    (us.foldl update_usage st).tokens = some (tokensOf (us.getLast h)) ∧
      (us.foldl update_usage st).cost = st.cost + (us.map effCost).sum := by
  induction us generalizing st with
  | nil => exact absurd rfl h
  | cons u rest ih =>
    cases rest with
    | nil =>
      refine ⟨?_, ?_⟩
      · simp only [List.foldl_cons, List.foldl_nil, List.getLast_singleton]
        exact update_usage_tokens st u
      · simp only [List.foldl_cons, List.foldl_nil, List.map_cons, List.map_nil,
          List.sum_cons, List.sum_nil, add_zero]
        exact update_usage_cost st u
    | cons v rest' =>
      have hne : v :: rest' ≠ [] := by simp
      have := ih (update_usage st u) hne
      refine ⟨?_, ?_⟩
      · rw [List.foldl_cons, this.1]
        have hlast : (u :: v :: rest').getLast h = (v :: rest').getLast hne :=
          List.getLast_cons hne
        rw [hlast]
      · rw [List.foldl_cons, this.2, update_usage_cost]
        simp [add_assoc]

/-- Witness for `c3_tokens_overwritten_cost_accumulated` at a concrete state
and record list. -/
theorem c3_tokens_overwritten_cost_accumulated_witness :
    (([{ prompt_tokens := some 5, cost := some 2 },
       { prompt_tokens := some 7 }] : List UsageRecord).foldl
        update_usage initUsage).tokens
      = some (tokensOf { prompt_tokens := some 7 }) ∧
    (([{ prompt_tokens := some 5, cost := some 2 },
       { prompt_tokens := some 7 }] : List UsageRecord).foldl
        update_usage initUsage).cost
      = initUsage.cost + (([{ prompt_tokens := some 5, cost := some 2 },
          { prompt_tokens := some 7 }] : List UsageRecord).map effCost).sum := by
  have := c3_tokens_overwritten_cost_accumulated initUsage
    [{ prompt_tokens := some 5, cost := some 2 }, { prompt_tokens := some 7 }]
    (by decide)
  exact this

/-! ## Messages and history normalization (`ChatSession._normalize_messages`) -/

inductive Role
  | user
  | assistant
  | tool
  | system
deriving DecidableEq

/-- One entry of an assistant message's `tool_calls` list when it is a dict
(`{"id": ..., "type": "function", "function": {"name": ..., "arguments": ...}}`). -/
structure TCDict where
  id : Option Str := none
  name : Str := []
  arguments : Str := []
deriving DecidableEq

/-- A `tool_calls` entry: normalization only inspects dict entries
(`isinstance(tc, dict)`), so anything else is `notDict`. -/
inductive TCEntry
  | isDict (d : TCDict)
  | notDict
deriving DecidableEq

structure Msg where
  role : Role
  content : Option Str := none
  tool_calls : Option (List TCEntry) := none
  tool_call_id : Option Str := none
  name : Option Str := none
deriving DecidableEq

/-- First pass of `_normalize_messages`: `if m2.get("content") is None: m2["content"] = ""`. -/
def coerceMsg (m : Msg) : Msg :=
  match m.content with
  | none => { m with content := some [] }
  | some _ => m

/-- Truthiness of `cur.get("tool_calls")` (present and non-empty). -/
def hasToolCalls (m : Msg) : Bool :=
  match m.tool_calls with
  | some l => !l.isEmpty
  | none => false

/-- `call_ids = [tc.get("id") for tc in cur.get("tool_calls") or [] if isinstance(tc, dict)]`. -/
def callIds (m : Msg) : List (Option Str) :=
  (m.tool_calls.getD []).filterMap (fun e =>
    match e with
    | .isDict d => some d.id
    | .notDict => none)

/-- `tcid = nxt.get("tool_call_id"); if tcid: seen_ids.add(tcid)`. -/
def collectId : Option Str → List Str → List Str
  | some s, acc => if s = [] then acc else s :: acc
  | none, acc => acc

/-- `seen_ids` collected from the contiguous run of `tool` messages at the
front of `rest` (only truthy `tool_call_id` values are added). -/
def toolPrefixIds : List Msg → List Str
  | [] => []
  | m :: rest =>
    if m.role = .tool then collectId m.tool_call_id (toolPrefixIds rest) else []

/-- One element of `set(call_ids).issubset(seen_ids)`: a `None` or empty id is
never among the seen ids. -/
def idCovered (seen : List Str) : Option Str → Bool
  | some s => decide (s ∈ seen)
  | none => false

/-- `set(call_ids).issubset(seen_ids)`. -/
def covered (m : Msg) (rest : List Msg) : Bool :=
  (callIds m).all (idCovered (toolPrefixIds rest))

/-- The guard `cur role == assistant and cur tool_calls and
(call_ids and not set(call_ids).issubset(seen_ids))` deciding a drop. -/
def dropCondition (m : Msg) (rest : List Msg) : Bool :=
  decide (m.role = .assistant) && hasToolCalls m &&
    (!(callIds m).isEmpty && !covered m rest)

/-- Second pass of `_normalize_messages` (the `while i < len(norm)` loop):
each message is kept unless the drop guard fires against the untouched tail. -/
def dropPass : List Msg → List Msg
  | [] => []
  | m :: rest => if dropCondition m rest then dropPass rest else m :: dropPass rest

/-- `ChatSession._normalize_messages`. -/
def _normalize_messages (messages : List Msg) : List Msg :=
  dropPass (messages.map coerceMsg)

/-- The claim C5's keep-condition: an assistant message carrying tool calls is
kept iff its id set is fully covered by the contiguous tool run after it;
everything else is kept. -/
def keepSpecOpt : Option Msg → List Msg → Bool
  | some m, rest => !(decide (m.role = .assistant) && hasToolCalls m && !covered m rest)
  | none, _ => false

/-- `keepSpecOpt` applied to position `i` of `l` and the tail after it. -/
def keepSpec (l : List Msg) (i : Nat) : Bool :=
  keepSpecOpt l[i]? (l.drop (i + 1))

/-- Declarative restatement of claim C5: normalization keeps, in order,
exactly the positions of the coerced list satisfying `keepSpec`. -/
def normalizeSpec (messages : List Msg) : List Msg :=
  ((List.range (messages.map coerceMsg).length).filter
      (keepSpec (messages.map coerceMsg))).filterMap
    (fun i => (messages.map coerceMsg)[i]?)

/-! ### Theorems for C5 -/

lemma dropPass_nil : dropPass [] = [] := rfl

lemma dropPass_cons (m : Msg) (rest : List Msg) :
    dropPass (m :: rest)
      = if dropCondition m rest then dropPass rest else m :: dropPass rest := rfl

lemma covered_of_callIds_nil (m : Msg) (rest : List Msg) (h : callIds m = []) :
    covered m rest = true := by
  unfold covered
  rw [h]
  rfl

lemma dropCondition_eq (m : Msg) (rest : List Msg) :
    dropCondition m rest
      = (decide (m.role = .assistant) && hasToolCalls m && !covered m rest) := by
  unfold dropCondition
  cases h : callIds m with
  | nil => rw [covered_of_callIds_nil m rest h]; simp [h]
  | cons a l => simp [h]

lemma keepSpec_cons_zero (m : Msg) (t : List Msg) :
    keepSpec (m :: t) 0 = !dropCondition m t := by
  rw [dropCondition_eq]
  simp [keepSpec, keepSpecOpt]

lemma keepSpec_cons_succ (m : Msg) (t : List Msg) (i : Nat) :
    keepSpec (m :: t) (i + 1) = keepSpec t i := by
  simp [keepSpec]

lemma dropPass_eq_filter_spec (l : List Msg) :
    dropPass l = ((List.range l.length).filter (keepSpec l)).filterMap
      (fun i => l[i]?) := by
  induction l with
  | nil => rfl
  | cons m t ih =>
    have hrange : List.range (m :: t).length
        = 0 :: (List.range t.length).map Nat.succ := by
      simpa using List.range_succ_eq_map t.length
    rw [hrange, List.filter_cons]
    have hmapfilter :
        ((List.range t.length).map Nat.succ).filter (keepSpec (m :: t))
          = ((List.range t.length).filter (keepSpec t)).map Nat.succ := by
      rw [List.filter_map]
      congr 1
      apply List.filter_congr
      intro i _
      exact keepSpec_cons_succ m t i
    have hfun : (List.filterMap (fun i => (m :: t)[i]?) ∘ List.map Nat.succ) =
        List.filterMap fun i => t[i]? := by
      funext xs
      simp only [Function.comp_apply, List.filterMap_map]
      apply List.filterMap_congr
      intro i _
      simp
    by_cases hd : dropCondition m t
    · have hk : keepSpec (m :: t) 0 = false := by
        rw [keepSpec_cons_zero, hd]; rfl
      rw [hk]
      simp only [Bool.false_eq_true, if_false]
      rw [hmapfilter]
      have := congrFun hfun ((List.range t.length).filter (keepSpec t))
      simp only [Function.comp_apply] at this
      rw [this]
      rw [dropPass_cons, if_pos hd, ih]
    · have hd' : dropCondition m t = false := Bool.eq_false_iff.mpr hd
      have hk : keepSpec (m :: t) 0 = true := by
        rw [keepSpec_cons_zero, hd']; rfl
      rw [hk]
      simp only [if_true]
      rw [List.filterMap_cons]
      have hg0 : (m :: t)[0]? = some m := by simp
      rw [hg0, hmapfilter]
      have := congrFun hfun ((List.range t.length).filter (keepSpec t))
      simp only [Function.comp_apply] at this
      rw [this]
      rw [dropPass_cons, if_neg hd, ih]

/-- Claim C5: `_normalize_messages` removes exactly those assistant messages
whose tool-call id set is not fully covered by the contiguous run of tool
messages immediately following them, keeping every other (coerced) message
in order — the imperative loop equals the positional filter. -/
theorem c5_normalize_filter_spec (messages : List Msg) :
    _normalize_messages messages = normalizeSpec messages := by
  unfold _normalize_messages normalizeSpec
  exact dropPass_eq_filter_spec (messages.map coerceMsg)

/-! ### Theorems for C6 -/

lemma toolPrefixIds_nil : toolPrefixIds [] = [] := rfl

lemma toolPrefixIds_cons (m : Msg) (rest : List Msg) :
    toolPrefixIds (m :: rest)
      = if m.role = .tool then collectId m.tool_call_id (toolPrefixIds rest)
        else [] := rfl

lemma collectId_mem (o : Option Str) (A B : List Str)
    (hAB : ∀ y, y ∈ A → y ∈ B) :
    ∀ x, x ∈ collectId o A → x ∈ collectId o B := by
  intro x hx
  cases o with
  | none => exact hAB x hx
  | some s =>
    by_cases hs : s = []
    · simp only [collectId, if_pos hs] at hx ⊢
      exact hAB x hx
    · simp only [collectId, if_neg hs] at hx ⊢
      rcases List.mem_cons.mp hx with h | h
      · exact List.mem_cons.mpr (Or.inl h)
      · exact List.mem_cons.mpr (Or.inr (hAB x h))

lemma toolPrefixIds_dropPass_mem (l : List Msg) :
    ∀ x ∈ toolPrefixIds l, x ∈ toolPrefixIds (dropPass l) := by
  induction l with
  | nil => intro x hx; simp [toolPrefixIds_nil] at hx
  | cons m rest ih =>
    intro x hx
    by_cases hrole : m.role = .tool
    · have hnotasst : dropCondition m rest = false := by
        unfold dropCondition
        have : decide (m.role = .assistant) = false := by simp [hrole]
        simp [this]
      rw [dropPass_cons, if_neg (by simp [hnotasst])]
      rw [toolPrefixIds_cons, if_pos hrole] at hx ⊢
      exact collectId_mem m.tool_call_id (toolPrefixIds rest)
        (toolPrefixIds (dropPass rest)) ih x hx
    · rw [toolPrefixIds_cons, if_neg hrole] at hx
      simp at hx

lemma covered_dropPass (m : Msg) (rest : List Msg)
    (h : covered m rest = true) : covered m (dropPass rest) = true := by
  unfold covered at h ⊢
  rw [List.all_eq_true] at h ⊢
  intro oid hoid
  have hthis := h oid hoid
  cases oid with
  | none => simp [idCovered] at hthis
  | some s =>
    simp only [idCovered, decide_eq_true_eq] at hthis ⊢
    exact toolPrefixIds_dropPass_mem rest s hthis

lemma dropCondition_dropPass (m : Msg) (rest : List Msg)
    (h : dropCondition m rest = false) : dropCondition m (dropPass rest) = false := by
  rw [dropCondition_eq] at h ⊢
  rcases Bool.and_eq_false_iff.mp h with h1 | h2
  · rcases Bool.and_eq_false_iff.mp h1 with h3 | h4
    · rw [h3]; rfl
    · rw [h4]; simp
  · have hcov : covered m rest = true := by
      cases hc : covered m rest with
      | true => rfl
      | false => rw [hc] at h2; simp at h2
    rw [covered_dropPass m rest hcov]
    simp

lemma dropPass_idem (l : List Msg) : dropPass (dropPass l) = dropPass l := by
  induction l with
  | nil => rfl
  | cons m rest ih =>
    by_cases hd : dropCondition m rest
    · rw [dropPass_cons, if_pos hd, ih]
    · have hd' : dropCondition m rest = false := Bool.eq_false_iff.mpr hd
      rw [dropPass_cons, if_neg hd]
      have h2 : dropCondition m (dropPass rest) = false :=
        dropCondition_dropPass m rest hd'
      rw [dropPass_cons, if_neg (by simp [h2]), ih]

lemma coerceMsg_idem (m : Msg) : coerceMsg (coerceMsg m) = coerceMsg m := by
  unfold coerceMsg
  cases h : m.content with
  | none => simp
  | some s => simp [h]

lemma dropPass_mem (l : List Msg) (x : Msg) (hx : x ∈ dropPass l) : x ∈ l := by
  induction l with
  | nil => simp [dropPass_nil] at hx
  | cons m rest ih =>
    rw [dropPass_cons] at hx
    by_cases hd : dropCondition m rest
    · rw [if_pos hd] at hx
      exact List.mem_cons.mpr (Or.inr (ih hx))
    · rw [if_neg hd] at hx
      rcases List.mem_cons.mp hx with h | h
      · exact List.mem_cons.mpr (Or.inl h)
      · exact List.mem_cons.mpr (Or.inr (ih h))

lemma map_coerce_dropPass (h : List Msg) :
    (dropPass (h.map coerceMsg)).map coerceMsg = dropPass (h.map coerceMsg) := by
  have : ∀ x ∈ dropPass (h.map coerceMsg), coerceMsg x = x := by
    intro x hx
    have hx' : x ∈ h.map coerceMsg := dropPass_mem _ x hx
    rcases List.mem_map.mp hx' with ⟨y, _, rfl⟩
    exact coerceMsg_idem y
  calc (dropPass (h.map coerceMsg)).map coerceMsg
      = (dropPass (h.map coerceMsg)).map id := List.map_congr_left this
    _ = dropPass (h.map coerceMsg) := List.map_id _

/-- Claim C6: history normalization is idempotent —
`normalize(normalize(h)) = normalize(h)` for every message list. -/
theorem c6_normalize_idempotent (hist : List Msg) :
    _normalize_messages (_normalize_messages hist) = _normalize_messages hist := by
  unfold _normalize_messages
  rw [map_coerce_dropPass]
  exact dropPass_idem _

/-! ## JSON values and `json.loads`

Model of the `json` library as used at session.py line 352
(`args = json.loads(raw_args)`): a recursive-descent parser over code points.
Restrictions of the model (irrelevant to the claims): numbers are integers
(no fractions/exponents) and strings carry no backslash escapes; such inputs
are treated as parse errors.  Malformed input yields `Except.error`, the
counterpart of `json.JSONDecodeError`. -/

inductive Json where
  | null
  | bool (b : Bool)
  | num (n : Int)
  | str (s : Str)
  | arr (elems : List Json)
  | obj (fields : List (Str × Json))

/-- JSON insignificant whitespace (space, tab, LF, CR). -/
def isJsonWs (c : Nat) : Bool := c = 32 || c = 9 || c = 10 || c = 13

def isDigitNat (c : Nat) : Bool := 48 ≤ c && c ≤ 57

def digitsToNat (ds : List Nat) : Nat := ds.foldl (fun a c => a * 10 + (c - 48)) 0

/-- Body of a JSON string after the opening quote, up to the closing quote. -/
def parseStringRest (s : List Nat) : Option (Str × List Nat) :=
  let t := s.takeWhile (fun c => !(c = 34 || c = 92))
  match s.drop t.length with
  | 34 :: r => some (t, r)
  | _ => none

mutual

def parseJson : Nat → List Nat → Option (Json × List Nat)
  | 0, _ => none
  | fuel + 1, s =>
    match s.dropWhile isJsonWs with
    | [] => none
    | c :: rest =>
      if c = 123 then      -- '{'
        match rest.dropWhile isJsonWs with
        | 125 :: r' => some (.obj [], r')   -- '}'
        | _ => parseMembers fuel rest
      else if c = 91 then  -- '['
        match rest.dropWhile isJsonWs with
        | 93 :: r' => some (.arr [], r')    -- ']'
        | _ => parseElems fuel rest
      else if c = 34 then  -- '"'
        (parseStringRest rest).map (fun p => (.str p.1, p.2))
      else if c = 116 then -- "true"
        match rest with
        | 114 :: 117 :: 101 :: r => some (.bool true, r)
        | _ => none
      else if c = 102 then -- "false"
        match rest with
        | 97 :: 108 :: 115 :: 101 :: r => some (.bool false, r)
        | _ => none
      else if c = 110 then -- "null"
        match rest with
        | 117 :: 108 :: 108 :: r => some (.null, r)
        | _ => none
      else if c = 45 then  -- '-'
        match rest.takeWhile isDigitNat with
        | [] => none
        | ds => some (.num (-(digitsToNat ds : Int)), rest.dropWhile isDigitNat)
      else if isDigitNat c then
        some (.num (digitsToNat (c :: rest.takeWhile isDigitNat)),
          rest.dropWhile isDigitNat)
      else none

/-- Members of an object after `{` (when not immediately closed). -/
def parseMembers : Nat → List Nat → Option (Json × List Nat)
  | 0, _ => none
  | fuel + 1, s =>
    match s.dropWhile isJsonWs with
    | 34 :: rest =>      -- key string
      match parseStringRest rest with
      | none => none
      | some (key, r1) =>
        match r1.dropWhile isJsonWs with
        | 58 :: r3 =>    -- ':'
          match parseJson fuel r3 with
          | none => none
          | some (v, r4) =>
            match r4.dropWhile isJsonWs with
            | 44 :: r6 => -- ','
              match parseMembers fuel r6 with
              | some (.obj kvs, r7) => some (.obj ((key, v) :: kvs), r7)
              | _ => none
            | 125 :: r6 => some (.obj [(key, v)], r6) -- '}'
            | _ => none
        | _ => none
    | _ => none

/-- Elements of an array after `[` (when not immediately closed). -/
def parseElems : Nat → List Nat → Option (Json × List Nat)
  | 0, _ => none
  | fuel + 1, s =>
    match parseJson fuel s with
    | none => none
    | some (v, r1) =>
      match r1.dropWhile isJsonWs with
      | 44 :: r2 =>   -- ','
        match parseElems fuel r2 with
        | some (.arr vs, r3) => some (.arr (v :: vs), r3)
        | _ => none
      | 93 :: r2 => some (.arr [v], r2) -- ']'
      | _ => none

end

/-- `json.loads`: parse one JSON document, requiring the whole input to be
consumed (up to trailing whitespace). -/
def json_loads (s : Str) : Except Unit Json :=
  match parseJson (s.length + 2) s with
  | some (v, rest) => if rest.dropWhile isJsonWs = [] then .ok v else .error ()
  | none => .error ()

/-! ## The turn orchestrator (`ChatSession.stream_turn`)

The LLM client, MCP client and approval policy are injected capabilities
(`gptsh.interfaces`), so the model is driven by a script: one `RoundScript`
per iteration of the `while True` loop, carrying the outcome of
`llm.stream(params)` (extracted chunk texts and usage via `chunk_utils`),
the post-stream observables `get_last_stream_info()` /
`get_last_stream_calls()`, and the non-stream fallback `llm.complete(params)`
outcome (`none` models the call raising, which the source turns into `{}`).
Progress-reporter and console I/O have no effect on session state and are
omitted. -/

/-- A normalized tool call (`{"id", "name", "arguments"}` with the arguments
kept as a JSON string, as the wire format guarantees). -/
structure ToolCall where
  id : Option Str := none
  name : Str := []
  arguments : Str := []
deriving DecidableEq

/-- An entry of `get_last_stream_calls()` (accumulated stream deltas). -/
structure StreamedCall where
  id : Option Str := none
  name : Option Str := none
  arguments : Option Str := none
deriving DecidableEq

/-- One streamed chunk: its `usage` attribute and `extract_text(chunk)`. -/
structure Chunk where
  usage : Option UsageRecord := none
  text : Option Str := none
deriving DecidableEq

structure StreamRound where
  chunks : List Chunk := []
  /-- `info.get("finish_reason")` -/
  finish_reason : Option Str := none
  /-- `bool(info.get("saw_tool_delta"))` -/
  saw_tool_delta : Bool := false
  /-- `get_last_stream_calls()` -/
  calls : List StreamedCall := []
deriving DecidableEq

/-- The non-stream fallback response: its `usage`, `parse_tool_calls(resp)`
and `extract_text(resp)`. -/
structure CompleteResp where
  usage : Option UsageRecord := none
  calls : List ToolCall := []
  text : Option Str := none
deriving DecidableEq

structure RoundScript where
  stream : StreamRound
  complete : Option CompleteResp := none
deriving DecidableEq

/-- The injected capabilities and configuration consulted by `stream_turn`. -/
structure TurnCfg where
  /-- tools were attached in `_prepare_params` -/
  has_tools : Bool
  /-- `(config.get("mcp", {}) or {}).get("tool_choice") == "required"` -/
  tool_choice_required : Bool
  /-- `ApprovalPolicy.is_auto_allowed` -/
  auto_allowed : Str → Str → Bool
  /-- `ApprovalPolicy.confirm` (the user's interactive answer) -/
  confirm : Str → Str → Json → Bool
  /-- `MCPClient.call_tool` result string -/
  call_tool : Str → Str → Json → Str

def chunkText (ch : Chunk) : Str :=
  match ch.text with
  | some t => t
  | none => []

/-- `full_text` accumulated over the stream (`if text: full_text += text`). -/
def fullTextOf (chunks : List Chunk) : Str :=
  chunks.foldl (fun acc ch => acc ++ chunkText ch) []

/-- The texts yielded to the renderer (only truthy chunks are yielded). -/
def yieldsOf (chunks : List Chunk) : List Str :=
  chunks.filterMap (fun ch =>
    match ch.text with
    | some t => if t = [] then none else some t
    | none => none)

/-- Per-chunk `if getattr(chunk, "usage", None): self._update_usage(...)`. -/
def streamUsage (u : UsageState) (chunks : List Chunk) : UsageState :=
  chunks.foldl (fun acc ch =>
    match ch.usage with
    | some ur => update_usage acc ur
    | none => acc) u

def emptyObjStr : Str := [123, 125]  -- "{}"

/-- Lines 273–279: build `calls` from streamed entries, skipping entries with
a falsy name and defaulting falsy arguments to `"{}"`. -/
def toCalls (scs : List StreamedCall) : List ToolCall :=
  scs.filterMap (fun c =>
    match c.name with
    | some n =>
      if n = [] then none
      else some { id := c.id, name := n,
                  arguments := match c.arguments with
                    | some a => if a = [] then emptyObjStr else a
                    | none => emptyObjStr }
    | none => none)

def strToolCalls : Str := [116, 111, 111, 108, 95, 99, 97, 108, 108, 115]  -- "tool_calls"
def strStop : Str := [115, 116, 111, 112]                                  -- "stop"

/-- `(str(finish_reason).lower() == "tool_calls") if finish_reason else False`. -/
def finishIndicatesTools (fr : Option Str) : Bool :=
  match fr with
  | some s => if s = [] then false else decide (s.map lowerChar = strToolCalls)
  | none => false

def strInvalidToolName : Str :=  -- "Invalid tool name: "
  [73, 110, 118, 97, 108, 105, 100, 32, 116, 111, 111, 108, 32, 110, 97, 109,
   101, 58, 32]

def strDeniedByUser : Str :=  -- "Denied by user: "
  [68, 101, 110, 105, 101, 100, 32, 98, 121, 32, 117, 115, 101, 114, 58, 32]

def userMsg (prompt : Str) : Msg := { role := .user, content := some prompt }

def assistantMsg (text : Str) : Msg := { role := .assistant, content := some text }

/-- Lines 341–348: synthetic result for a call whose name has no `__`. -/
def invalidToolMsg (c : ToolCall) : Msg :=
  { role := .tool, content := some (strInvalidToolName ++ c.name),
    tool_call_id := c.id, name := some c.name }

/-- Lines 377–384: synthetic result for a call the user denied. -/
def deniedToolMsg (c : ToolCall) : Msg :=
  { role := .tool, content := some (strDeniedByUser ++ c.name),
    tool_call_id := c.id, name := some c.name }

/-- Lines 311–330: the assistant stub carrying the round's tool calls. -/
def assistantStub (full_text : Str) (calls : List ToolCall) : Msg :=
  { role := .assistant,
    content := if stripN full_text = [] then none else some full_text,
    tool_calls := some (calls.map (fun c => TCEntry.isDict ⟨c.id, c.name, c.arguments⟩)) }

inductive TurnError
  /-- `ToolApprovalDenied` (core/exceptions.py) raised at line 376. -/
  | denied (name : Str)
  /-- `json.JSONDecodeError` escaping from `json.loads` at line 352. -/
  | jsonError (raw : Str)
deriving DecidableEq

structure Enriched where
  call : ToolCall
  server : Str
  toolname : Str
  args : Json

/-- Outcome of the per-call loop (lines 338–397): the synthetic `tool`
messages for invalid/denied calls, the enriched approved calls, the
`(server, tool)` pairs for which the approval policy was consulted, and the
first exception if one was raised (processing stops there). -/
structure ProcOut where
  denied_msgs : List Msg
  approved : List Enriched
  consulted : List (Str × Str)
  err : Option TurnError

/-- The `for call in calls` loop of `stream_turn` (lines 338–397). -/
def processCalls (cfg : TurnCfg) : List ToolCall → ProcOut
  | [] => ⟨[], [], [], none⟩
  | c :: rest =>
    match findSub c.name sepStr with
    | none =>
      let o := processCalls cfg rest
      { o with denied_msgs := invalidToolMsg c :: o.denied_msgs }
    | some i =>
      let server := c.name.take i
      let toolname := c.name.drop (i + 2)
      let raw_args := if c.arguments = [] then emptyObjStr else c.arguments
      match json_loads raw_args with
      | .error _ => ⟨[], [], [], some (.jsonError raw_args)⟩
      | .ok args =>
        let allowed := cfg.auto_allowed server toolname ||
          cfg.confirm server toolname args
        if allowed then
          let o := processCalls cfg rest
          { o with approved := ⟨c, server, toolname, args⟩ :: o.approved,
                   consulted := (server, toolname) :: o.consulted }
        else if cfg.tool_choice_required then
          ⟨[], [], [(server, toolname)], some (.denied c.name)⟩
        else
          let o := processCalls cfg rest
          { o with denied_msgs := deniedToolMsg c :: o.denied_msgs,
                   consulted := (server, toolname) :: o.consulted }

inductive TurnResult
  | finished
  | failed (e : TurnError)
  /-- Model artifact: the round script ran out while the loop would continue. -/
  | outOfScript
deriving DecidableEq

/-- Observable outcome of one `stream_turn` call: the yielded texts, the
session history after the turn, the usage counter, how many times
`llm.stream` / `llm.complete` were invoked, which `(server, tool)` pairs the
approval policy was consulted for, which tools were executed, and how the
turn ended. -/
structure TurnOutput where
  yielded : List Str
  history : List Msg
  usage : UsageState
  streams : Nat
  completes : Nat
  consulted : List (Str × Str)
  executed : List (Str × Str × Json)
  result : TurnResult

/-- Loop-carried state of the `while True` loop. -/
structure LoopSt where
  conversation : List Msg
  turn_deltas : List Msg
  yielded : List Str
  usage : UsageState
  streams : Nat
  completes : Nat
  consulted : List (Str × Str)
  executed : List (Str × Str × Json)

/-- The commit on a normal return: `self.history.append(user_msg)` then
`self.history.extend(turn_deltas)`. -/
def commitOutput (history0 : List Msg) (prompt : Str) (st : LoopSt) : TurnOutput :=
  ⟨st.yielded, history0 ++ [userMsg prompt] ++ st.turn_deltas, st.usage,
   st.streams, st.completes, st.consulted, st.executed, .finished⟩

/-- An exception escaping the turn: the session history is untouched. -/
def failOutput (history0 : List Msg) (st : LoopSt) (e : TurnError) : TurnOutput :=
  ⟨st.yielded, history0, st.usage, st.streams, st.completes, st.consulted,
   st.executed, .failed e⟩

/-- Lines 311–448: one tool round — append the assistant stub, run the
per-call loop, raise its exception if any, otherwise append denied messages
then the gathered tool results (in call-declaration order), and continue. -/
def toolRound (cfg : TurnCfg) (history0 : List Msg) (st : LoopSt)
    (calls : List ToolCall) (full_text : Str)
    (next : LoopSt → TurnOutput) : TurnOutput :=
  let astub := assistantStub full_text calls
  let st1 := { st with conversation := st.conversation ++ [astub],
                       turn_deltas := st.turn_deltas ++ [astub] }
  let o := processCalls cfg calls
  match o.err with
  | some e => failOutput history0 { st1 with consulted := st1.consulted ++ o.consulted } e
  | none =>
    let toolMsgs : List Msg := o.approved.map (fun en =>
      { role := .tool, content := some (cfg.call_tool en.server en.toolname en.args),
        tool_call_id := en.call.id, name := some en.call.name })
    next { st1 with
      conversation := st1.conversation ++ o.denied_msgs ++ toolMsgs,
      turn_deltas := st1.turn_deltas ++ o.denied_msgs ++ toolMsgs,
      consulted := st1.consulted ++ o.consulted,
      executed := st1.executed ++ o.approved.map (fun en => (en.server, en.toolname, en.args)) }

/-- The `while True` loop of `stream_turn`, one `RoundScript` per iteration. -/
def runRounds (cfg : TurnCfg) (history0 : List Msg) (prompt : Str) :
    List RoundScript → LoopSt → TurnOutput
  | [], st =>
    ⟨st.yielded, history0, st.usage, st.streams, st.completes, st.consulted,
     st.executed, .outOfScript⟩
  | r :: rest, st =>
    -- S1 STREAMING: accumulate usage, text and yields over the chunks.
    let st1 : LoopSt := { st with
      usage := streamUsage st.usage r.stream.chunks,
      yielded := st.yielded ++ yieldsOf r.stream.chunks,
      streams := st.streams + 1 }
    let full_text := fullTextOf r.stream.chunks
    if cfg.has_tools = false then
      -- Lines 232–242: no tools — commit and return.
      let final : List Msg :=
        if stripN full_text = [] then [] else [assistantMsg full_text]
      commitOutput history0 prompt { st1 with
        conversation := st1.conversation ++ final,
        turn_deltas := st1.turn_deltas ++ final }
    else
      let saw_deltas := r.stream.saw_tool_delta
      let intent_only := decide (stripN full_text = [])
      let finish_tools := finishIndicatesTools r.stream.finish_reason
      let need_tool_round := saw_deltas || !r.stream.calls.isEmpty ||
        intent_only || finish_tools
      if need_tool_round = false then
        -- Lines 259–268: S3 DONE.
        let final : List Msg :=
          if stripN full_text = [] then [] else [assistantMsg full_text]
        commitOutput history0 prompt { st1 with
          conversation := st1.conversation ++ final,
          turn_deltas := st1.turn_deltas ++ final }
      else
        -- Line 270–271: separator yield when visible text was produced.
        let st2 : LoopSt := { st1 with
          yielded := if stripN full_text = [] then st1.yielded
                     else st1.yielded ++ [[10, 10]] }
        if r.stream.calls.isEmpty = false then
          toolRound cfg history0 st2 (toCalls r.stream.calls) full_text
            (fun st' => runRounds cfg history0 prompt rest st')
        else
          -- Lines 280–309: non-stream fallback.
          let resp := r.complete.getD ⟨none, [], none⟩
          let st3 : LoopSt := { st2 with
            usage := match resp.usage with
              | some ur => update_usage st2.usage ur
              | none => st2.usage,
            completes := st2.completes + 1 }
          match resp.calls with
          | [] =>
            -- `final_text = extract_text(resp) or full_text`
            let final_text := match resp.text with
              | some t => if t = [] then full_text else t
              | none => full_text
            if stripN final_text = [] then
              commitOutput history0 prompt st3
            else
              commitOutput history0 prompt { st3 with
                yielded := st3.yielded ++ [final_text],
                conversation := st3.conversation ++ [assistantMsg final_text],
                turn_deltas := st3.turn_deltas ++ [assistantMsg final_text] }
          | c :: cs =>
            toolRound cfg history0 st3 (c :: cs) full_text
              (fun st' => runRounds cfg history0 prompt rest st')

/-- `ChatSession.stream_turn`: `_prepare_params` builds the conversation from
the normalized `history + [user]` (the role filter keeps every modelled
role), then the loop runs.  `usage0` is the session's usage counter on
entry. -/
def stream_turn (cfg : TurnCfg) (history0 : List Msg) (prompt : Str)
    (usage0 : UsageState) (rounds : List RoundScript) : TurnOutput :=
  runRounds cfg history0 prompt rounds
    ⟨_normalize_messages (history0 ++ [userMsg prompt]), [], [], usage0, 0, 0, [], []⟩

/-! ### Shared facts about the orchestrator -/

/-- A call that raises nothing and is not denied when it is reached by the
per-call loop: if its name splits at `__`, its arguments parse and the policy
(auto or interactive) allows it.  Calls without `__` satisfy this vacuously. -/
def callFine (cfg : TurnCfg) (c : ToolCall) : Prop :=
  ∀ i, findSub c.name sepStr = some i →
    ∃ a, json_loads (if c.arguments = [] then emptyObjStr else c.arguments) = .ok a ∧
      (cfg.auto_allowed (c.name.take i) (c.name.drop (i + 2)) ||
        cfg.confirm (c.name.take i) (c.name.drop (i + 2)) a) = true

lemma processCalls_append_fine_err (cfg : TurnCfg) (pre l : List ToolCall)
    (hpre : ∀ c ∈ pre, callFine cfg c) :
    (processCalls cfg (pre ++ l)).err = (processCalls cfg l).err := by
  induction pre with
  | nil => rfl
  | cons c pre' ih =>
    have hc : callFine cfg c := hpre c (List.mem_cons_self c pre')
    have hih := ih (fun x hx => hpre x (List.mem_cons.mpr (Or.inr hx)))
    rw [List.cons_append]
    cases hsep : findSub c.name sepStr with
    | none =>
      simp only [processCalls, hsep]
      exact hih
    | some i =>
      obtain ⟨a, ha, hallowed⟩ := hc i hsep
      simp only [processCalls, hsep, ha, hallowed]
      simpa using hih

lemma finish_stop_not_tools : finishIndicatesTools (some strStop) = false := by decide

/-- A scripted policy that auto-allows nothing, denies every prompt and
returns empty tool results; tools attached, `tool_choice` not required. -/
def cfgDenyAll : TurnCfg :=
  ⟨true, false, fun _ _ => false, fun _ _ _ => false, fun _ _ _ => []⟩

/-- As `cfgDenyAll` but with `tool_choice = "required"`. -/
def cfgRequired : TurnCfg :=
  ⟨true, true, fun _ _ => false, fun _ _ _ => false, fun _ _ _ => []⟩

/-! ### Theorems for C2 -/

/-- A stream that ends with `finish_reason = "stop"`, saw no tool delta,
accumulated no calls — and produced no visible text. -/
def c2CexRound : RoundScript :=
  ⟨⟨[], some strStop, false, []⟩, some ⟨none, [], some [104, 105]⟩⟩

/-- Claim C2 counterexample: a stream with `finish_reason = "stop"` and zero
tool deltas but no visible text makes the orchestrator call `llm.complete`
once more (the intent-only fallback), so the turn performs two LLM calls,
not exactly one round. -/
theorem c2_counterexample :
    c2CexRound.stream.finish_reason = some strStop ∧
    c2CexRound.stream.saw_tool_delta = false ∧
    c2CexRound.stream.calls = [] ∧
    (stream_turn cfgDenyAll [] [112] initUsage [c2CexRound]).streams = 1 ∧
    (stream_turn cfgDenyAll [] [112] initUsage [c2CexRound]).completes = 1 := by
  refine ⟨rfl, rfl, rfl, ?_, ?_⟩ <;> decide

/-- Claim C2 as amended: for every streamed response whose `finish_reason` is
`"stop"`, which saw no tool-call delta, accumulated no streamed calls, and
produced non-empty visible text, the orchestrator performs exactly one LLM
round (one `stream` call, no `complete` call) and appends exactly one
assistant message (after the user message) to the session history. -/
theorem c2_stop_with_text_single_round
    (cfg : TurnCfg) (history0 : List Msg) (prompt : Str) (u0 : UsageState)
    (r : RoundScript) (rest : List RoundScript)
    (hfr : r.stream.finish_reason = some strStop)
    (hsaw : r.stream.saw_tool_delta = false)
    (hcalls : r.stream.calls = [])
    (htext : stripN (fullTextOf r.stream.chunks) ≠ []) :
    (stream_turn cfg history0 prompt u0 (r :: rest)).streams = 1 ∧
    (stream_turn cfg history0 prompt u0 (r :: rest)).completes = 0 ∧
    (stream_turn cfg history0 prompt u0 (r :: rest)).result = .finished ∧
    (stream_turn cfg history0 prompt u0 (r :: rest)).history
      = history0 ++ [userMsg prompt, assistantMsg (fullTextOf r.stream.chunks)] := by
  unfold stream_turn runRounds
  rw [hfr, hsaw, hcalls]
  by_cases ht : cfg.has_tools = false
  · simp [ht, commitOutput, htext]
  · simp [ht, commitOutput, htext, finish_stop_not_tools]

/-- A stream yielding `"hi"` and stopping cleanly. -/
def c2WitnessRound : RoundScript :=
  ⟨⟨[⟨none, some [104, 105]⟩], some strStop, false, []⟩, none⟩

/-- Witness for `c2_stop_with_text_single_round` at a concrete script. -/
theorem c2_stop_with_text_single_round_witness :
    (stream_turn cfgDenyAll [] [112] initUsage [c2WitnessRound]).streams = 1 ∧
    (stream_turn cfgDenyAll [] [112] initUsage [c2WitnessRound]).completes = 0 ∧
    (stream_turn cfgDenyAll [] [112] initUsage [c2WitnessRound]).result = .finished ∧
    (stream_turn cfgDenyAll [] [112] initUsage [c2WitnessRound]).history
      = [] ++ [userMsg [112], assistantMsg (fullTextOf c2WitnessRound.stream.chunks)] :=
  c2_stop_with_text_single_round cfgDenyAll [] [112] initUsage c2WitnessRound []
    rfl rfl rfl (by decide)

/-! ### Theorems for C4 -/

/-- Claim C4: with `tool_choice = "required"`, a user denial of a reached tool
call raises `ToolApprovalDenied`, and the aborted turn leaves the session
history untouched (no user message, assistant stub or tool message is
committed). -/
theorem c4_required_denial_aborts
    (cfg : TurnCfg) (history0 : List Msg) (prompt : Str) (u0 : UsageState)
    (r : RoundScript) (rest : List RoundScript)
    (pre post : List ToolCall) (dc : ToolCall) (i : Nat) (args : Json)
    (hreq : cfg.tool_choice_required = true)
    (htools : cfg.has_tools = true)
    (hsplit : toCalls r.stream.calls = pre ++ dc :: post)
    (hpre : ∀ c ∈ pre, callFine cfg c)
    (hsep : findSub dc.name sepStr = some i)
    (hargs : json_loads (if dc.arguments = [] then emptyObjStr else dc.arguments)
      = .ok args)
    (hauto : cfg.auto_allowed (dc.name.take i) (dc.name.drop (i + 2)) = false)
    (hconf : cfg.confirm (dc.name.take i) (dc.name.drop (i + 2)) args = false) :
    (stream_turn cfg history0 prompt u0 (r :: rest)).result
      = .failed (.denied dc.name) ∧
    (stream_turn cfg history0 prompt u0 (r :: rest)).history = history0 := by
  have hne : r.stream.calls ≠ [] := by
    intro h
    rw [h] at hsplit
    simp [toCalls] at hsplit
  have hne' : r.stream.calls.isEmpty = false := by
    cases h : r.stream.calls with
    | nil => exact absurd h hne
    | cons a l => rfl
  have herr : (processCalls cfg (toCalls r.stream.calls)).err
      = some (.denied dc.name) := by
    rw [hsplit, processCalls_append_fine_err cfg pre (dc :: post) hpre]
    simp only [processCalls, hsep, hargs, hauto, hconf, hreq]
    simp
  unfold stream_turn runRounds
  simp only [htools, hne', Bool.not_false, Bool.true_or, Bool.or_true,
    Bool.false_eq_true, if_false, Bool.true_eq_false, if_true]
  unfold toolRound
  simp only [herr, failOutput]
  exact ⟨trivial, trivial⟩

/-- A stream whose only call is `a__b` with arguments `"{}"`. -/
def c4WitnessRound : RoundScript :=
  ⟨⟨[], some strToolCalls, true,
    [⟨some [49], some [97, 95, 95, 98], some emptyObjStr⟩]⟩, none⟩

/-- Witness for `c4_required_denial_aborts` at a concrete script. -/
theorem c4_required_denial_aborts_witness :
    (stream_turn cfgRequired [] [112] initUsage [c4WitnessRound]).result
      = .failed (.denied [97, 95, 95, 98]) ∧
    (stream_turn cfgRequired [] [112] initUsage [c4WitnessRound]).history = [] :=
  c4_required_denial_aborts cfgRequired [] [112] initUsage c4WitnessRound []
    [] [] ⟨some [49], [97, 95, 95, 98], emptyObjStr⟩ 1 (.obj [])
    rfl rfl rfl (by intro c hc; simp at hc) rfl rfl rfl rfl

/-! ### Theorems for C1 -/

/-- A stream whose only call is `fs__read` with the malformed arguments
string `"oops"`. -/
def c1CexRound : RoundScript :=
  ⟨⟨[], some strToolCalls, false,
    [⟨some [49], some [102, 115, 95, 95, 114, 101, 97, 100],
      some [111, 111, 112, 115]⟩]⟩, none⟩

/-- Claim C1 counterexample: a tool call whose `arguments` string is
malformed JSON (`"oops"`) is *not* coerced to `{}` — `json.loads` raises,
the turn fails with a JSON decode error, the approval policy is never
consulted and no tool is executed. -/
theorem c1_counterexample :
    (stream_turn cfgDenyAll [] [112] initUsage [c1CexRound]).result
      = .failed (.jsonError [111, 111, 112, 115]) ∧
    (stream_turn cfgDenyAll [] [112] initUsage [c1CexRound]).consulted = [] ∧
    (stream_turn cfgDenyAll [] [112] initUsage [c1CexRound]).executed.length = 0 ∧
    (stream_turn cfgDenyAll [] [112] initUsage [c1CexRound]).history = [] := by
  refine ⟨?_, ?_, ?_, ?_⟩ <;> decide

/-- Claim C1 as amended: tool-call argument parsing is strict, not tolerant —
when a reached call (its name containing `__`) carries a non-empty arguments
string that is malformed JSON, `json.loads` raises and the turn aborts with
the decode error: the session history is unchanged and no tool is executed.
(Only a falsy arguments value is replaced by `"{}"`.) -/
theorem c1_malformed_args_abort_turn
    (cfg : TurnCfg) (history0 : List Msg) (prompt : Str) (u0 : UsageState)
    (r : RoundScript) (rest : List RoundScript)
    (pre post : List ToolCall) (bc : ToolCall) (i : Nat)
    (htools : cfg.has_tools = true)
    (hsplit : toCalls r.stream.calls = pre ++ bc :: post)
    (hpre : ∀ c ∈ pre, callFine cfg c)
    (hsep : findSub bc.name sepStr = some i)
    (hbad : json_loads (if bc.arguments = [] then emptyObjStr else bc.arguments)
      = .error ()) :
    (stream_turn cfg history0 prompt u0 (r :: rest)).result
      = .failed (.jsonError (if bc.arguments = [] then emptyObjStr else bc.arguments)) ∧
    (stream_turn cfg history0 prompt u0 (r :: rest)).history = history0 ∧
    (stream_turn cfg history0 prompt u0 (r :: rest)).executed = [] := by
  have hne : r.stream.calls ≠ [] := by
    intro h
    rw [h] at hsplit
    simp [toCalls] at hsplit
  have hne' : r.stream.calls.isEmpty = false := by
    cases h : r.stream.calls with
    | nil => exact absurd h hne
    | cons a l => rfl
  have herr : (processCalls cfg (toCalls r.stream.calls)).err
      = some (.jsonError (if bc.arguments = [] then emptyObjStr else bc.arguments)) := by
    rw [hsplit, processCalls_append_fine_err cfg pre (bc :: post) hpre]
    simp only [processCalls, hsep, hbad]
  unfold stream_turn runRounds
  simp only [htools, hne', Bool.not_false, Bool.true_or, Bool.or_true,
    Bool.false_eq_true, if_false, Bool.true_eq_false, if_true]
  unfold toolRound
  simp only [herr, failOutput]
  exact ⟨trivial, trivial, trivial⟩

/-- A stream whose only call is `a__b` with malformed arguments `"oops"`. -/
def c1WitnessRound : RoundScript :=
  ⟨⟨[], some strToolCalls, true,
    [⟨some [49], some [97, 95, 95, 98], some [111, 111, 112, 115]⟩]⟩, none⟩

/-- Witness for `c1_malformed_args_abort_turn` at a concrete script. -/
theorem c1_malformed_args_abort_turn_witness :
    (stream_turn cfgDenyAll [] [112] initUsage [c1WitnessRound]).result
      = .failed (.jsonError (if ([111, 111, 112, 115] : Str) = []
          then emptyObjStr else [111, 111, 112, 115])) ∧
    (stream_turn cfgDenyAll [] [112] initUsage [c1WitnessRound]).history = [] ∧
    (stream_turn cfgDenyAll [] [112] initUsage [c1WitnessRound]).executed = [] :=
  c1_malformed_args_abort_turn cfgDenyAll [] [112] initUsage c1WitnessRound []
    [] [] ⟨some [49], [97, 95, 95, 98], [111, 111, 112, 115]⟩ 1
    rfl rfl (by intro c hc; simp at hc) rfl rfl

/-! ### Theorems for C10 -/

/-- Claim C10: a call whose name has no `__` separator is answered with the
synthetic tool message `"Invalid tool name: <name>"` carrying the call's id;
the approval policy is not consulted for it, it is not executed, and the
remaining calls are processed unchanged. -/
theorem c10_invalid_tool_name (cfg : TurnCfg) (c : ToolCall) (rest : List ToolCall)
    (h : findSub c.name sepStr = none) :
    processCalls cfg (c :: rest) =
      { processCalls cfg rest with
          denied_msgs :=
            { role := .tool, content := some (strInvalidToolName ++ c.name),
              tool_call_id := c.id, name := some c.name : Msg }
              :: (processCalls cfg rest).denied_msgs } := by
  simp only [processCalls, h]
  rfl

def c10Call : ToolCall := ⟨some [49], [98, 97, 100], emptyObjStr⟩  -- name "bad"

/-- Witness for `c10_invalid_tool_name` at a concrete call. -/
theorem c10_invalid_tool_name_witness :
    processCalls cfgDenyAll [c10Call] =
      { processCalls cfgDenyAll ([] : List ToolCall) with
          denied_msgs :=
            { role := .tool, content := some (strInvalidToolName ++ c10Call.name),
              tool_call_id := c10Call.id, name := some c10Call.name : Msg }
              :: (processCalls cfgDenyAll ([] : List ToolCall)).denied_msgs } :=
  c10_invalid_tool_name cfgDenyAll c10Call [] rfl

/-! ## Tool discovery (`src/gptsh/mcp/client.py`, `_list_tools_async`)

Querying one server's transports (`_query_server` before its `try`) is
library I/O; its outcome — a tool-name list or any raised exception
(including `asyncio.TimeoutError`) — is an input of the model. -/

structure MCPServer where
  disabled : Bool
  /-- Outcome of querying this server's transport (tool names, or the
  exception message). -/
  outcome : Except Str (List Str)

/-- `_query_server`'s `try/except`: any failure yields the empty list. -/
def query_server (srv : MCPServer) : List Str :=
  match srv.outcome with
  | .ok ts => ts
  | .error _ => []

/-- `_list_tools_async`'s result map: the first loop inserts every disabled
server with `[]` and skips querying it; the gather then fills in each queried
server's result (`_query_server` never lets an exception through, so the
`isinstance(res, Exception)` arm is unreachable). -/
def list_tools_all (servers : List (Str × MCPServer)) : List (Str × List Str) :=
  (servers.filter (fun p => p.2.disabled)).map (fun p => (p.1, ([] : List Str)))
    ++ (servers.filter (fun p => !p.2.disabled)).map (fun p => (p.1, query_server p.2))

/-- Lookup in the result map (dict access by server name). -/
def lookupTools (m : List (Str × List Str)) (k : Str) : Option (List Str) :=
  (m.find? (fun e => decide (e.1 = k))).map (·.2)

/-! ### Theorems for C8 -/

lemma find?_key_none_of_map (l : List (Str × MCPServer)) (q : Str × MCPServer → Bool)
    (g : Str × MCPServer → List Str) (n : Str)
    (hn : n ∉ l.map Prod.fst) :
    ((l.filter q).map (fun p => (p.1, g p))).find? (fun e => decide (e.1 = n))
      = none := by
  induction l with
  | nil => rfl
  | cons p rest ih =>
    have hn1 : p.1 ≠ n := by
      intro h
      exact hn (by simp [h])
    have hn2 : n ∉ rest.map Prod.fst := by
      intro h
      exact hn (by simp [h])
    rw [List.filter_cons]
    by_cases hq : q p
    · rw [if_pos hq, List.map_cons, List.find?_cons]
      simp only [hn1, decide_eq_true_eq, if_false]
      exact ih hn2
    · rw [if_neg hq]
      exact ih hn2

lemma lookupTools_list_tools_all (servers : List (Str × MCPServer))
    (hnd : (servers.map Prod.fst).Nodup) (n : Str) (s : MCPServer)
    (hmem : (n, s) ∈ servers) :
    lookupTools (list_tools_all servers) n
      = some (if s.disabled then [] else query_server s) := by
  induction servers with
  | nil => simp at hmem
  | cons p rest ih =>
    obtain ⟨pn, ps⟩ := p
    have hnd' : (rest.map Prod.fst).Nodup := (List.nodup_cons.mp hnd).2
    have hp1 : pn ∉ rest.map Prod.fst := by
      simpa using (List.nodup_cons.mp hnd).1
    rcases List.mem_cons.mp hmem with heq | hmem'
    · -- the looked-up server is the head
      obtain ⟨h1, h2⟩ := Prod.mk.injEq .. ▸ heq
      subst h1
      subst h2
      by_cases hd : s.disabled
      · unfold list_tools_all lookupTools
        rw [List.filter_cons, if_pos (by simpa using hd), List.map_cons,
          List.cons_append, List.find?_cons]
        simp [hd]
      · unfold list_tools_all lookupTools
        rw [List.filter_cons, if_neg (by simpa using hd),
          List.filter_cons, if_pos (by simpa using hd), List.map_cons,
          List.find?_append]
        rw [find?_key_none_of_map rest _ _ n hp1]
        simp [hd]
    · -- the looked-up server is in the tail
      have hne : pn ≠ n := by
        intro h
        apply hp1
        rw [h]
        exact List.mem_map.mpr ⟨(n, s), hmem', rfl⟩
      have hihres := ih hnd' hmem'
      unfold list_tools_all lookupTools at hihres ⊢
      by_cases hd : ps.disabled
      · rw [List.filter_cons, if_pos (by simpa using hd), List.filter_cons,
          if_neg (by simp [hd]), List.map_cons, List.cons_append, List.find?_cons]
        simpa [hne] using hihres
      · rw [List.filter_cons, if_neg (by simpa using hd), List.filter_cons,
          if_pos (by simpa using hd), List.map_cons, List.find?_append,
          List.find?_cons_of_neg _ (by simp [hne])]
        rw [List.find?_append] at hihres
        simpa [hne] using hihres

/-- Claim C8: discovery is failure-isolated — for any configuration with
distinct server names, a server whose query raises any exception is mapped to
the empty list, while every other non-disabled server's result is still its
own query result; the discovery map is always produced, never aborted. -/
theorem c8_discovery_failure_isolated (servers : List (Str × MCPServer))
    (hnd : (servers.map Prod.fst).Nodup) (n : Str) (s : MCPServer) (e : Str)
    (hmem : (n, s) ∈ servers) (hdis : s.disabled = false)
    (herr : s.outcome = .error e) :
    lookupTools (list_tools_all servers) n = some [] ∧
    ∀ n' s', (n', s') ∈ servers → s'.disabled = false →
      lookupTools (list_tools_all servers) n' = some (query_server s') := by
  constructor
  · rw [lookupTools_list_tools_all servers hnd n s hmem]
    simp [hdis, query_server, herr]
  · intro n' s' hmem' hdis'
    rw [lookupTools_list_tools_all servers hnd n' s' hmem']
    simp [hdis']

/-- A two-server configuration: `alpha` errors out, `beta` answers. -/
def c8Servers : List (Str × MCPServer) :=
  [([97], ⟨false, .error [116, 105, 109, 101, 111, 117, 116]⟩),
   ([98], ⟨false, .ok [[116, 49], [116, 50]]⟩)]

/-- Witness for `c8_discovery_failure_isolated` on a concrete configuration. -/
theorem c8_discovery_failure_isolated_witness :
    lookupTools (list_tools_all c8Servers) [97] = some [] ∧
    ∀ n' s', (n', s') ∈ c8Servers → s'.disabled = false →
      lookupTools (list_tools_all c8Servers) n' = some (query_server s') :=
  c8_discovery_failure_isolated c8Servers (by decide) [97]
    ⟨false, .error [116, 105, 109, 101, 111, 117, 116]⟩
    [116, 105, 109, 101, 111, 117, 116]
    (by unfold c8Servers; exact List.mem_cons_self _ _) rfl rfl

/-! ## Streaming markdown buffer (`src/gptsh/core/runner.py`, `MarkdownBuffer`)

The model treats LF (code point 10) as the line terminator (the source's
`find`/`splitlines` calls use `"\n"`).  In `push`'s `while` loop the source's
`cursor` is reset to 0 on every `continue` and never advanced otherwise, so
each iteration sees `cursor = 0`; `line_start` is therefore always 0 and the
`before`-flush inside the fence-entry branch is unreachable (`before` is
always empty).  The loop is modelled as a recursion with a fuel bound of
`2 * len(buf) + 3`, which exceeds the largest possible number of iterations
(every iteration either consumes at least two buffered characters or toggles
the fence flag before the next one consumes or exits). -/

def fenceBT : Str := [96, 96, 96]    -- "```"
def fenceTD : Str := [126, 126, 126] -- "~~~"

/-- `MarkdownBuffer._is_fence_line`. -/
def is_fence_line (line : Str) : Option Str :=
  let stripped := lstripN line
  if fenceBT.isPrefixOf stripped then some fenceBT
  else if fenceTD.isPrefixOf stripped then some fenceTD
  else none

/-- Python `str.splitlines(keepends=True)` with LF as the terminator. -/
def splitLines : List Nat → List (List Nat)
  | [] => []
  | c :: rest =>
    if c = 10 then [c] :: splitLines rest
    else match splitLines rest with
      | [] => [[c]]
      | l :: ls => (c :: l) :: ls

/-- `line.lstrip().startswith(self._fence_marker)` — the closing-line test of
the scan at the bottom of `push`. -/
def closesFence (marker : Str) (line : Str) : Bool :=
  marker.isPrefixOf (lstripN line)

/-- Index (≥ 1) of the first closing line in `lines`, skipping line 0
(`i != 0` in the source's scan). -/
def findCloseIdx (lines : List Str) (marker : Str) : Option Nat :=
  ((lines.drop 1).findIdx? (closesFence marker)).map (· + 1)

/-- `min` of the `` ``` `` and `~~~` occurrence indices (`nearest_fence`). -/
def minFenceIdx (buf : List Nat) : Option Nat :=
  match findSub buf fenceBT, findSub buf fenceTD with
  | some a, some b => some (min a b)
  | some a, none => some a
  | none, some b => some b
  | none, none => none

/-- The `while cursor < len(self._buf)` loop of `MarkdownBuffer.push`,
returning the emitted blocks and the final `(buf, in_fence, fence_marker)`. -/
def pushLoop : Nat → List Nat → Bool → Option Str →
    List (List Nat) × List Nat × Bool × Option Str
  | 0, buf, inF, mk => ([], buf, inF, mk)
  | fuel + 1, buf, inF, mk =>
    if buf = [] then ([], buf, inF, mk)
    else if inF = false then
      -- paragraph boundary first, unless a fence marker occurs earlier
      let idx := findSub buf [10, 10]
      let nearest := minFenceIdx buf
      let parBound : Option Nat :=
        match idx, nearest with
        | some i, none => some i
        | some i, some nf => if i < nf then some i else none
        | none, _ => none
      match parBound with
      | some i =>
        let res := pushLoop fuel (buf.drop (i + 2)) false mk
        (buf.take (i + 2) :: res.1, res.2)
      | none =>
        -- does the first line of the buffer open a fence?
        match findSub buf [10] with
        | none => ([], buf, false, mk)
        | some nl =>
          match is_fence_line (buf.take (nl + 1)) with
          | some mark => pushLoop fuel buf true (some mark)
          | none => ([], buf, false, mk)
    else
      let m0 := mk.getD []
      let close_idx := findSub buf (10 :: m0)
      let start_close := m0.isPrefixOf buf
      if close_idx.isSome || start_close then
        let lines := splitLines buf
        match findCloseIdx lines m0 with
        | some i =>
          let res := pushLoop fuel ((lines.drop (i + 1)).flatten) false none
          ((lines.take (i + 1)).flatten :: res.1, res.2)
        | none => ([], buf, true, mk)
      else ([], buf, true, mk)

structure MarkdownBuffer where
  buf : List Nat := []
  in_fence : Bool := false
  fence_marker : Option Str := none
  latency_chars : Nat := 1200
deriving DecidableEq

/-- Python `s.rfind(sub)`: greatest index at which `sub` occurs. -/
def rfindSub (s sub : List Nat) : Option Nat :=
  ((List.range (s.length + 1)).filter (fun i => sub.isPrefixOf (s.drop i))).getLast?

/-- `MarkdownBuffer.push`: append the chunk, run the loop, then apply the
latency guard (only outside a fence, when the buffer is long and ends in a
newline). -/
def MarkdownBuffer.push (st : MarkdownBuffer) (chunk : List Nat) :
    List (List Nat) × MarkdownBuffer :=
  let buf0 := st.buf ++ chunk
  let res := pushLoop (2 * buf0.length + 3) buf0 st.in_fence st.fence_marker
  let out := res.1
  let buf1 := res.2.1
  let inF1 := res.2.2.1
  let mk1 := res.2.2.2
  if inF1 = false ∧ st.latency_chars ≤ buf1.length ∧ buf1.getLast? = some 10 then
    match rfindSub buf1 [10, 10] with
    | some j =>
      (out ++ [buf1.take (j + 2)],
       { buf := buf1.drop (j + 2), in_fence := inF1, fence_marker := mk1,
         latency_chars := st.latency_chars })
    | none =>
      (out ++ [buf1],
       { buf := [], in_fence := inF1, fence_marker := mk1,
         latency_chars := st.latency_chars })
  else
    (out, { buf := buf1, in_fence := inF1, fence_marker := mk1,
            latency_chars := st.latency_chars })

/-- A closing fence line has been buffered: some line after the first one
begins (after leading whitespace) with the fence marker. -/
def hasClosingLine (s : List Nat) (marker : Str) : Bool :=
  ((splitLines s).drop 1).any (closesFence marker)

/-- The fenced region: everything through the first closing fence line. -/
def fenceRegion (s : List Nat) (marker : Str) : List Nat :=
  match findCloseIdx (splitLines s) marker with
  | some i => ((splitLines s).take (i + 1)).flatten
  | none => s

/-! ### Theorems for C9 -/

lemma isPrNil (s : List Nat) : List.isPrefixOf ([] : List Nat) s = true := by
  cases s <;> rfl

lemma existsSuffixOfIsPr : ∀ (l s : List Nat), l.isPrefixOf s = true →
    ∃ t, s = l ++ t := by
  intro l
  induction l with
  | nil => intro s _; exact ⟨s, rfl⟩
  | cons c l' ih =>
    intro s h
    cases s with
    | nil => simp [List.isPrefixOf] at h
    | cons d s' =>
      simp only [List.isPrefixOf, Bool.and_eq_true, beq_iff_eq] at h
      obtain ⟨rfl, h2⟩ := h
      obtain ⟨t, rfl⟩ := ih s' h2
      exact ⟨t, rfl⟩

lemma isPrAppSelf : ∀ (l t : List Nat), l.isPrefixOf (l ++ t) = true := by
  intro l
  induction l with
  | nil => intro t; exact isPrNil t
  | cons c l' ih => intro t; simp [List.isPrefixOf, ih]

lemma isPrExtend (l s u : List Nat) (h : l.isPrefixOf s = true) :
    l.isPrefixOf (s ++ u) = true := by
  obtain ⟨t, rfl⟩ := existsSuffixOfIsPr l s h
  rw [List.append_assoc]
  exact isPrAppSelf l (t ++ u)

lemma isPrConsElim (c : Nat) (m' s : List Nat) (h : (c :: m').isPrefixOf s = true) :
    ∃ s', s = c :: s' ∧ m'.isPrefixOf s' = true := by
  cases s with
  | nil => simp [List.isPrefixOf] at h
  | cons d s' =>
    simp only [List.isPrefixOf, Bool.and_eq_true, beq_iff_eq] at h
    exact ⟨s', by rw [h.1], h.2⟩

lemma splitLines_ne_nil (s : List Nat) (hs : s ≠ []) :
    ∃ l ls, splitLines s = l :: ls := by
  cases s with
  | nil => exact absurd rfl hs
  | cons c rest =>
    by_cases hc : c = 10
    · exact ⟨[c], splitLines rest, by simp [splitLines, hc]⟩
    · cases hsl : splitLines rest with
      | nil => exact ⟨[c], [], by simp [splitLines, hc, hsl]⟩
      | cons l ls => exact ⟨c :: l, ls, by simp [splitLines, hc, hsl]⟩

lemma not_nl_of_not_space (c : Nat) (h : isSpaceNat c = false) : c ≠ 10 := by
  intro hc
  rw [hc] at h
  simp [isSpaceNat] at h

/-- The first line of a buffer beginning with a newline-free token `m`
begins with `m` as well. -/
lemma firstLine_isPr (m : List Nat) :
    ∀ b, (∀ x ∈ m, isSpaceNat x = false) → m.isPrefixOf b = true → b ≠ [] →
      ∃ l ls, splitLines b = l :: ls ∧ m.isPrefixOf l = true := by
  induction m with
  | nil =>
    intro b _ _ hb
    obtain ⟨l, ls, hsl⟩ := splitLines_ne_nil b hb
    exact ⟨l, ls, hsl, isPrNil l⟩
  | cons c m' ih =>
    intro b hsp hpr _
    obtain ⟨b', rfl, hpr'⟩ := isPrConsElim c m' b hpr
    have hc10 : c ≠ 10 := not_nl_of_not_space c (hsp c (List.mem_cons_self c m'))
    by_cases hbe : b' = []
    · subst hbe
      have hm' : m' = [] := by
        cases m' with
        | nil => rfl
        | cons d m'' => simp [List.isPrefixOf] at hpr'
      subst hm'
      exact ⟨[c], [], by simp [splitLines, hc10], by simp [List.isPrefixOf]⟩
    · by_cases hm' : m' = []
      · subst hm'
        obtain ⟨l, ls, hsl⟩ := splitLines_ne_nil b' hbe
        refine ⟨c :: l, ls, ?_, ?_⟩
        · simp [splitLines, hc10, hsl]
        · simp [List.isPrefixOf, isPrNil]
      · have hmem : ∀ x ∈ m', isSpaceNat x = false := fun x hx =>
          hsp x (List.mem_cons.mpr (Or.inr hx))
        obtain ⟨l, ls, hsl, hprl⟩ := ih b' hmem hpr' hbe
        refine ⟨c :: l, ls, ?_, ?_⟩
        · simp [splitLines, hc10, hsl]
        · simp [List.isPrefixOf, hprl]

lemma lstripN_of_head_not_space (c : Nat) (l : List Nat) (h : isSpaceNat c = false) :
    lstripN (c :: l) = c :: l := by
  simp [lstripN, List.dropWhile_cons, h]

/-- If `m` (non-empty, whitespace-free) begins some text `b` placed right
after a newline, a closing fence line exists. -/
lemma hasClosing_of_split (m : List Nat) (hm : m ≠ [])
    (hsp : ∀ x ∈ m, isSpaceNat x = false) :
    ∀ a b, m.isPrefixOf b = true → hasClosingLine (a ++ 10 :: b) m = true := by
  intro a
  induction a with
  | nil =>
    intro b hpr
    have hb : b ≠ [] := by
      intro h
      rw [h] at hpr
      cases m with
      | nil => exact hm rfl
      | cons c m' => simp [List.isPrefixOf] at hpr
    obtain ⟨l, ls, hsl, hprl⟩ := firstLine_isPr m b hsp hpr hb
    have hcl : closesFence m l = true := by
      obtain ⟨c, m', rfl⟩ : ∃ c m', m = c :: m' := by
        cases m with
        | nil => exact absurd rfl hm
        | cons c m' => exact ⟨c, m', rfl⟩
      obtain ⟨l', rfl, _⟩ := isPrConsElim c m' l hprl
      unfold closesFence
      rw [lstripN_of_head_not_space c l' (hsp c (List.mem_cons_self c m'))]
      exact hprl
    unfold hasClosingLine
    rw [show splitLines ([] ++ 10 :: b) = [10] :: splitLines b by simp [splitLines]]
    rw [List.drop_one, List.tail_cons, hsl]
    simp [hcl]
  | cons c a' ih =>
    intro b hpr
    have hih := ih b hpr
    by_cases hc : c = 10
    · subst hc
      unfold hasClosingLine at hih ⊢
      rw [show (10 :: a') ++ 10 :: b = 10 :: (a' ++ 10 :: b) by simp]
      rw [show splitLines (10 :: (a' ++ 10 :: b))
            = [10] :: splitLines (a' ++ 10 :: b) by simp [splitLines]]
      rw [List.drop_one, List.tail_cons]
      rw [List.any_eq_true] at hih ⊢
      obtain ⟨x, hx, hpx⟩ := hih
      exact ⟨x, List.mem_of_mem_drop hx, hpx⟩
    · have hne : a' ++ 10 :: b ≠ [] := by simp
      obtain ⟨l, ls, hsl⟩ := splitLines_ne_nil _ hne
      unfold hasClosingLine at hih ⊢
      rw [show (c :: a') ++ 10 :: b = c :: (a' ++ 10 :: b) by simp]
      rw [show splitLines (c :: (a' ++ 10 :: b))
            = (c :: l) :: ls by simp [splitLines, hc, hsl]]
      rw [hsl] at hih
      simpa using hih

lemma findSub_isPr : ∀ (s sub : List Nat) (k : Nat), findSub s sub = some k →
    sub.isPrefixOf (s.drop k) = true := by
  intro s
  induction s with
  | nil =>
    intro sub k h
    unfold findSub at h
    by_cases hs : sub = []
    · rw [if_pos hs] at h
      obtain rfl : (0 : Nat) = k := by simpa using h
      rw [hs]
      exact isPrNil _
    · rw [if_neg hs] at h
      simp at h
  | cons c rest ih =>
    intro sub k h
    unfold findSub at h
    by_cases hp : sub.isPrefixOf (c :: rest) = true
    · rw [if_pos hp] at h
      obtain rfl : (0 : Nat) = k := by simpa using h
      simpa using hp
    · rw [if_neg (by simpa using hp)] at h
      cases hrec : findSub rest sub with
      | none => rw [hrec] at h; simp at h
      | some k' =>
        rw [hrec] at h
        simp only [Option.map_some'] at h
        obtain rfl : k' + 1 = k := by simpa using h
        rw [List.drop_succ_cons]
        exact ih sub k' hrec

lemma hasClosing_of_findSub (s m : List Nat) (k : Nat) (hm : m ≠ [])
    (hsp : ∀ x ∈ m, isSpaceNat x = false)
    (hf : findSub s (10 :: m) = some k) : hasClosingLine s m = true := by
  have hpr := findSub_isPr s (10 :: m) k hf
  obtain ⟨t, ht⟩ := existsSuffixOfIsPr (10 :: m) (s.drop k) hpr
  have hsplit : s = s.take k ++ 10 :: (m ++ t) := by
    conv_lhs => rw [← List.take_append_drop k s]
    rw [ht]
    simp
  rw [hsplit]
  exact hasClosing_of_split m hm hsp (s.take k) (m ++ t) (isPrAppSelf m t)

lemma findCloseIdx_eq_none (buf m : List Nat)
    (h : hasClosingLine buf m = false) :
    findCloseIdx (splitLines buf) m = none := by
  unfold findCloseIdx
  unfold hasClosingLine at h
  rw [List.findIdx?_eq_none_iff.mpr]
  · rfl
  · intro x hx
    rw [List.any_eq_false] at h
    exact Bool.eq_false_iff.mpr (h x hx)

lemma findCloseIdx_exists (buf m : List Nat)
    (h : hasClosingLine buf m = true) :
    ∃ i, findCloseIdx (splitLines buf) m = some i := by
  unfold findCloseIdx
  unfold hasClosingLine at h
  rw [List.any_eq_true] at h
  obtain ⟨x, hx, hpx⟩ := h
  cases hf : ((splitLines buf).drop 1).findIdx? (closesFence m) with
  | some j => exact ⟨j + 1, by simp⟩
  | none =>
    rw [List.findIdx?_eq_none_iff] at hf
    have := hf x hx
    rw [hpx] at this
    simp at this

lemma fence_marker_facts (m : Str) (hm : m = fenceBT ∨ m = fenceTD) :
    m ≠ [] ∧ ∀ x ∈ m, isSpaceNat x = false := by
  rcases hm with rfl | rfl
  · exact ⟨by decide, by decide⟩
  · exact ⟨by decide, by decide⟩

/-- In-fence behaviour of the loop while no closing line is buffered: it
exits immediately, emitting nothing and keeping the buffer and fence state
(this holds for any fuel and any buffer length, so in particular the
latency-guard can never see `in_fence = false` here). -/
lemma pushLoop_fence_noclose (fuel : Nat) (buf : List Nat) (m : Str)
    (hm : m = fenceBT ∨ m = fenceTD)
    (hnc : hasClosingLine buf m = false) :
    pushLoop (fuel + 1) buf true (some m) = ([], buf, true, some m) := by
  obtain ⟨hm1, hm2⟩ := fence_marker_facts m hm
  by_cases hb : buf = []
  · subst hb; simp [pushLoop]
  · have hci : findSub buf (10 :: m) = none := by
      cases hf : findSub buf (10 :: m) with
      | none => rfl
      | some k =>
        have hcl := hasClosing_of_findSub buf m k hm1 hm2 hf
        rw [hcl] at hnc
        simp at hnc
    have hfc := findCloseIdx_eq_none buf m hnc
    by_cases hsc : m.isPrefixOf buf = true
    · simp [pushLoop, hb, hci, hfc, hsc]
    · simp [pushLoop, hb, hci, hsc]

/-- In-fence behaviour of the loop when the buffer starts with the marker
(unindented opening fence) and a closing line is buffered: the region through
the closing line is emitted as one block and the loop continues after it. -/
lemma pushLoop_fence_close (fuel : Nat) (buf : List Nat) (m : Str) (i : Nat)
    (hopen : m.isPrefixOf buf = true)
    (hne : buf ≠ [])
    (hfc : findCloseIdx (splitLines buf) m = some i) :
    pushLoop (fuel + 1) buf true (some m)
      = (((splitLines buf).take (i + 1)).flatten
          :: (pushLoop fuel ((splitLines buf).drop (i + 1)).flatten false none).1,
         (pushLoop fuel ((splitLines buf).drop (i + 1)).flatten false none).2) := by
  simp [pushLoop, hne, hopen, hfc]

/-- Claim C9 as amended: while the markdown buffer is inside a fence,
(1) if no closing fence line is buffered, `push` emits nothing and only
extends the buffer — in particular the latency-guard flush never fires
inside a fence, whatever the buffer length; and
(2) if the opening fence line begins with the marker unindented, then as soon
as a closing fence line (a line other than the first whose text after leading
whitespace starts with the marker) is buffered, the whole fenced region
through that line is emitted as a single leading block.
(With an indented opening fence the region may never be emitted, see the
counterexample.) -/
theorem c9_fence_no_split (st : MarkdownBuffer) (chunk : List Nat) (m : Str)
    (hf : st.in_fence = true) (hmk : st.fence_marker = some m)
    (hm : m = fenceBT ∨ m = fenceTD) :
    (hasClosingLine (st.buf ++ chunk) m = false →
      st.push chunk = ([], { st with buf := st.buf ++ chunk })) ∧
    (m.isPrefixOf st.buf = true → hasClosingLine (st.buf ++ chunk) m = true →
      ∃ rest st', st.push chunk = (fenceRegion (st.buf ++ chunk) m :: rest, st')) := by
  obtain ⟨buf, inF, mk, lat⟩ := st
  dsimp only at hf hmk ⊢
  subst hf
  subst hmk
  constructor
  · intro hnc
    unfold MarkdownBuffer.push
    dsimp only
    rw [pushLoop_fence_noclose (2 * (buf ++ chunk).length + 2) (buf ++ chunk) m hm hnc]
    simp
  · intro hopen hcl
    have hopen' : m.isPrefixOf (buf ++ chunk) = true := isPrExtend m buf chunk hopen
    obtain ⟨hm1, hm2⟩ := fence_marker_facts m hm
    have hne : buf ++ chunk ≠ [] := by
      intro h
      rw [h] at hopen'
      cases m with
      | nil => exact hm1 rfl
      | cons c m' => simp [List.isPrefixOf] at hopen'
    obtain ⟨i, hfc⟩ := findCloseIdx_exists (buf ++ chunk) m hcl
    have hreg : fenceRegion (buf ++ chunk) m
        = ((splitLines (buf ++ chunk)).take (i + 1)).flatten := by
      unfold fenceRegion
      rw [hfc]
    unfold MarkdownBuffer.push
    dsimp only
    rw [pushLoop_fence_close (2 * (buf ++ chunk).length + 2) (buf ++ chunk) m i
      hopen' hne hfc, hreg]
    set res := pushLoop (2 * (buf ++ chunk).length + 2)
      ((splitLines (buf ++ chunk)).drop (i + 1)).flatten false none with hres
    dsimp only
    by_cases hg : res.2.2.1 = false ∧ lat ≤ res.2.1.length ∧ res.2.1.getLast? = some 10
    · rw [if_pos hg]
      cases hrf : rfindSub res.2.1 [10, 10] with
      | some j =>
        refine ⟨res.1 ++ [res.2.1.take (j + 2)],
          ⟨res.2.1.drop (j + 2), res.2.2.1, res.2.2.2, lat⟩, ?_⟩
        simp [hrf]
      | none =>
        refine ⟨res.1 ++ [res.2.1], ⟨[], res.2.2.1, res.2.2.2, lat⟩, ?_⟩
        simp [hrf]
    · rw [if_neg hg]
      exact ⟨res.1, ⟨res.2.1, res.2.2.1, res.2.2.2, lat⟩, rfl⟩

/-- `"  ```\nx\n  ```\n"`: a fence whose opening and closing lines are both
indented. -/
def c9CexChunk : List Nat := [32, 32, 96, 96, 96, 10, 120, 10, 32, 32, 96, 96, 96, 10]

/-- Claim C9 counterexample: pushing a fenced block whose opening and closing
lines are indented buffers the opening fence, and although the closing fence
line has arrived, `push` emits nothing and stays inside the fence — the
region is not "then emitted as a single block" as the claim states. -/
theorem c9_counterexample :
    hasClosingLine c9CexChunk fenceBT = true ∧
    (MarkdownBuffer.push ⟨[], false, none, 1200⟩ c9CexChunk).1 = [] ∧
    (MarkdownBuffer.push ⟨[], false, none, 1200⟩ c9CexChunk).2.in_fence = true ∧
    (MarkdownBuffer.push ⟨[], false, none, 1200⟩ c9CexChunk).2.buf = c9CexChunk := by
  refine ⟨?_, ?_, ?_, ?_⟩ <;> decide

/-- Witness for `c9_fence_no_split`: part (1) at a fenced state receiving a
non-closing chunk, part (2) at a fenced state receiving the closing line. -/
theorem c9_fence_no_split_witness :
    (MarkdownBuffer.push ⟨[96, 96, 96, 10, 120, 10], true, some fenceBT, 1200⟩ [121, 10]
      = ([], { buf := [96, 96, 96, 10, 120, 10] ++ [121, 10], in_fence := true,
               fence_marker := some fenceBT, latency_chars := 1200 })) ∧
    (∃ rest st', MarkdownBuffer.push ⟨[96, 96, 96, 10], true, some fenceBT, 1200⟩
        [120, 10, 96, 96, 96, 10, 122]
      = (fenceRegion ([96, 96, 96, 10] ++ [120, 10, 96, 96, 96, 10, 122]) fenceBT
          :: rest, st')) :=
  ⟨(c9_fence_no_split ⟨[96, 96, 96, 10, 120, 10], true, some fenceBT, 1200⟩ [121, 10]
      fenceBT rfl rfl (Or.inl rfl)).1 (by decide),
   (c9_fence_no_split ⟨[96, 96, 96, 10], true, some fenceBT, 1200⟩
      [120, 10, 96, 96, 96, 10, 122] fenceBT rfl rfl (Or.inl rfl)).2
     (by decide) (by decide)⟩

end Gptsh
